import Mathlib

/-!
A shallow embedding of the content-resolution layer in `src/deps/content.js`
(classes `ContentFile` and `ContentLoader`), together with proofs about it.

External collaborators of that file are modelled as explicit parameters:

* the storage provider (`./fsp.js`, `./is-dir.js`, both absent from `src/`)
  is modelled from the spec as a structure `FS` with
  `exists/listEntries/readText` style fields;
* the glob matcher (the npm packages `is-glob` and `micromatch`) is a
  structure `GlobM`; a small concrete matcher `simpleGlob` (literal
  characters, `*` and `?` wildcards that do not cross `/`) instantiates it
  for concrete evaluations;
* the front-matter splitter (`./yaml-prefix.js`, absent from `src/`) and the
  YAML parser (npm `yaml`) are modelled from the spec as a structure
  `Parsers` with fields `splitFrontMatter` and `parseStructured`;
* node's `path` module is modelled by the `path*` functions below, restricted
  to the slash-separated path shapes this layer receives.

Stateful code is embedded by explicit state passing: the loader's `_cache`
is threaded through the functions, every storage-reading operation also
returns the list of file paths it read (its I/O log), and errors thrown by
the source are values of the inductive type `Err`.
-/

/-! ## Model of node's `path` module (external collaborator) -/

/-- Split a character list at every `/`. -/
def splitSlash : List Char → List (List Char)
  | [] => [[]]
  | '/' :: cs => [] :: splitSlash cs
  | c :: cs =>
    match splitSlash cs with
    | [] => [[c]]
    | seg :: rest => (c :: seg) :: rest

/-- Join segments with `/`. -/
def joinSlash : List (List Char) → List Char
  | [] => []
  | [s] => s
  | s :: rest => s ++ '/' :: joinSlash rest

/-- Model of `path.normalize`, restricted to the forms this layer receives:
drops empty and `.` segments, keeps a leading slash. -/
def pathNormalize (s : String) : String :=
  let cs := s.toList
  let segs := (splitSlash cs).filter (fun seg => !seg.isEmpty && seg != ['.'])
  let core := joinSlash segs
  match cs with
  | '/' :: _ => String.mk ('/' :: core)
  | _ => if core.isEmpty then "." else String.mk core

/-- Model of `path.dirname`. -/
def pathDirname (s : String) : String :=
  let segs := splitSlash s.toList
  if segs.length ≤ 1 then "."
  else
    let core := joinSlash segs.dropLast
    if core.isEmpty then
      match s.toList with
      | '/' :: _ => "/"
      | _ => "."
    else String.mk core

/-- Model of `path.basename`. -/
def pathBasename (s : String) : String :=
  match (splitSlash s.toList).getLast? with
  | some seg => String.mk seg
  | none => ""

/-- The suffix of a character list starting at its last `.`, if any. -/
def extAfterDot : List Char → Option (List Char)
  | [] => none
  | '.' :: cs =>
    match extAfterDot cs with
    | some r => some r
    | none => some ('.' :: cs)
  | _ :: cs => extAfterDot cs

/-- Model of `path.extname`: the extension of the basename; a dot that is the
first character of the basename does not start an extension. -/
def pathExtname (s : String) : String :=
  match (pathBasename s).toList with
  | [] => ""
  | _ :: rest =>
    match extAfterDot rest with
    | some suffix => String.mk suffix
    | none => ""

/-- Model of `path.join` on two components. -/
def pathJoin (a b : String) : String :=
  pathNormalize (String.mk (a.toList ++ '/' :: b.toList))

/-! ## Model of the glob matcher (external collaborator) -/

/-- The interface of the glob matcher the source uses
(`is-glob`'s `isGlob` and `micromatch.isMatch`, candidate first). -/
structure GlobM where
  isGlob : String → Bool
  isMatch : String → String → Bool

/-- A concrete glob matcher on character lists: literal characters, `*`
matches any (possibly empty) run of non-`/` characters, `?` matches one
non-`/` character.  Fuelled so that it is structurally recursive; each step
shrinks `|pattern| + |subject|`, so the fuel chosen in `globIsMatch`
suffices. -/
def globMatchF : Nat → List Char → List Char → Bool
  | 0, _, _ => false
  | fuel + 1, ps, s =>
    match ps, s with
    | [], [] => true
    | [], _ :: _ => false
    | '*' :: ps', s =>
      globMatchF fuel ps' s ||
        (match s with
         | [] => false
         | c :: s' => c != '/' && globMatchF fuel ('*' :: ps') s')
    | '?' :: _, [] => false
    | '?' :: ps', c :: s' => c != '/' && globMatchF fuel ps' s'
    | _ :: _, [] => false
    | p :: ps', c :: s' => p == c && globMatchF fuel ps' s'

/-- Concrete `isMatch`: does the subject string match the glob pattern? -/
def globIsMatch (s pat : String) : Bool :=
  globMatchF (pat.toList.length + s.toList.length + 1) pat.toList s.toList

/-- Concrete `isGlob`: the string contains a glob metacharacter. -/
def simpleIsGlob (s : String) : Bool :=
  s.toList.any fun c => c == '*' || c == '?' || c == '[' || c == ']'

/-- The concrete instantiation of the matcher interface. -/
def simpleGlob : GlobM :=
  { isGlob := simpleIsGlob, isMatch := globIsMatch }

/-! ## Models of storage and parsers (external collaborators) -/

/-- Modelled from the spec: the storage provider behind `./fsp.js` and
`./is-dir.js` (neither is under `src/`): `exists(path)` distinguishing
directories, `listEntries(directory)`, and `readText(path)`; `readText`
returns `none` on an I/O failure. -/
structure FS where
  isDir : String → Bool
  readdir : String → List String
  readFile : String → Option String

/-- Modelled from the spec: the front-matter splitter behind
`./yaml-prefix.js` (not under `src/`) (`splitFrontMatter(text) ->
\x7bconfig, rest\x7d`, with `none` for an absent block) and the structured-data
parser of the npm `yaml` package (`parseStructured(text) -> value`).
`κ` is the type of parsed configuration values, opaque to this layer. -/
structure Parsers (κ : Type) where
  splitFrontMatter : String → Option κ × String
  parseStructured : String → κ

/-- The errors the source throws, plus `fuel`, which models a directory walk
that does not terminate (the fuelled loop below gave up). -/
inductive Err where
  | globRead
  | ambiguous
  | globDir
  | ioError
  | fuel
  deriving DecidableEq

/-! ## `ContentFile` -/

/-- One resolved content record (class `ContentFile`).  The `content` field
keeps the three JavaScript states: `none` is `undefined` (unread),
`some none` is `null`, `some (some s)` is a string.  `path` models
`this.path`, which the source constructor never assigns, hence `Option`. -/
structure ContentFile (κ : Type) where
  config : Option κ
  content : Option (Option String)
  ext : String
  dir : String
  base : String
  path : Option String
  deriving DecidableEq

/-- The `ContentFile` constructor.  Its arguments are the values the caller
passes (`none` meaning the caller passed `undefined`).  The JS default
parameters `config=null, content=null` replace an `undefined` argument by
`null` before the field assignments, which is why the stored `content` is
always `some _`.  The source parses `fullPath` into `ext`/`dir`/`base` and
never assigns `this.path`. -/
def ContentFile.make {κ : Type} (fullPath : String) (config : Option κ)
    (content : Option (Option String)) : ContentFile κ :=
  { config := config
    content := some (match content with | none => none | some v => v)
    ext := pathExtname fullPath
    dir := pathDirname fullPath
    base := pathBasename fullPath
    path := none }

/-- `ContentFile.read`: returns the body.  On the unread sentinel it consults
`this.path`; since the constructor never assigns that field, the branch
cannot target the record's file (modelled as an I/O error on `none`).
Returns the result, the updated record, and the list of paths read. -/
def ContentFile.read {κ : Type} (fs : FS) (cf : ContentFile κ) :
    Except Err (Option String) × ContentFile κ × List String :=
  match cf.content with
  | some v => (.ok v, cf, [])
  | none =>
    match cf.path with
    | none => (.error .ioError, cf, [])
    | some p =>
      if fs.isDir p = false then
        match fs.readFile p with
        | some s => (.ok (some s), { cf with content := some (some s) }, [p])
        | none => (.error .ioError, cf, [p])
      else
        (.ok none, { cf with content := some none }, [])

/-- The extensions read eagerly at materialization time. -/
def alwaysReadSource : List String := [".md", ".yaml", ".html"]

/-- `ContentFile._buildFromSource`: materialize a record from a real on-disk
path.  Eager extensions read the file now; `.md` additionally splits the
front-matter, `.yaml` parses the whole document and keeps the text verbatim.
Other extensions leave `content` as `undefined` — which the constructor
default then collapses to `null`.  Returns the record and the paths read. -/
def ContentFile._buildFromSource {κ : Type} (fs : FS) (P : Parsers κ)
    (fullPath : String) : Except Err (ContentFile κ × List String) :=
  let ext := pathExtname fullPath
  if alwaysReadSource.contains ext then
    match fs.readFile fullPath with
    | none => .error .ioError
    | some text =>
      if ext == ".md" then
        let out := P.splitFrontMatter text
        .ok (ContentFile.make fullPath out.1 (some (some out.2)), [fullPath])
      else if ext == ".yaml" then
        .ok (ContentFile.make fullPath (some (P.parseStructured text))
              (some (some text)), [fullPath])
      else
        .ok (ContentFile.make fullPath none (some (some text)), [fullPath])
  else
    .ok (ContentFile.make fullPath none none, [])

/-! ## `ContentLoader` -/

/-- One generator registration (`register(dir, name, gen)` pushes one). -/
structure Reg (γ : Type) where
  dir : String
  name : String
  gen : γ
  deriving DecidableEq

/-- One entry in the loader's output and cache: the object literal
`{path, gen, cf}` built by `_outputFor`; `gen` is `undefined` (`none`) for
real files. -/
structure Entry (γ κ : Type) where
  path : String
  gen : Option γ
  cf : ContentFile κ
  deriving DecidableEq

/-- The loader's `_cache`: a path-keyed map, as an association list written
only at keys it does not yet hold. -/
def Cache (γ κ : Type) : Type := List (String × Entry γ κ)

/-- Lookup in the cache (first binding for the key). -/
def cacheLookup {γ κ : Type} : Cache γ κ → String → Option (Entry γ κ)
  | [], _ => none
  | (k, v) :: rest, p => if p = k then some v else cacheLookup rest p

namespace ContentLoader

variable {γ κ : Type}

/-- `register(dir, name, gen)`: appends to the ordered registration list. -/
def register (gens : List (Reg γ)) (dir name : String) (gen : γ) : List (Reg γ) :=
  gens ++ [⟨dir, name, gen⟩]

/-- `ContentLoader._virtual(candidateDir, candidateName)`: for every
registration, in order — skip unless the candidate directory matches the
stored directory glob; else the direct branch (candidate name matched
against the stored name glob, yielding the candidate name); else the broad
branch (only for a non-glob stored name: offered when the candidate is the
wildcard or the stored name satisfies the candidate pattern); else no
match.  Nulls are filtered out, mirroring `map(...).filter(x => x !== null)`. -/
def _virtual (G : GlobM) (gens : List (Reg γ)) (candidateDir : String)
    (candidateName : String) : List (String × γ) :=
  (gens.map fun r =>
    if !(G.isMatch candidateDir r.dir) then
      none
    else if G.isMatch candidateName r.name then
      some (candidateName, r.gen)
    else if !(G.isGlob r.name) && (candidateName == "*" || G.isMatch r.name candidateName) then
      some (r.name, r.gen)
    else
      none).reduceOption

/-- `ContentLoader._outputFor(fullPath, gen)`: return the cached entry for
the path if present (the `gen` argument is then ignored — first
materialization wins); otherwise build one — an unreadable empty record for
a generated file, `_buildFromSource` for a real one — and store it.
Returns the entry, the updated cache, and the paths read. -/
def _outputFor (fs : FS) (P : Parsers κ) (cache : Cache γ κ) (fullPath : String)
    (gen : Option γ) : Except Err (Entry γ κ × Cache γ κ × List String) :=
  match cacheLookup cache fullPath with
  | some v => .ok (v, cache, [])
  | none =>
    match gen with
    | some _ =>
      let v : Entry γ κ := ⟨fullPath, gen, ContentFile.make fullPath none none⟩
      .ok (v, (fullPath, v) :: cache, [])
    | none =>
      match ContentFile._buildFromSource fs P fullPath with
      | .error e => .error e
      | .ok (cf, reads) =>
        let v : Entry γ κ := ⟨fullPath, none, cf⟩
        .ok (v, (fullPath, v) :: cache, reads)

/-- The body of the `for (const raw of matchedFiles)` loop in `_contents`:
directories are enqueued (when recursing) and never emitted; files go
through `_outputFor` with no generator. -/
def processReal (fs : FS) (P : Parsers κ) (recurse : Bool) (currentDir : String) :
    List String → List String → List (Entry γ κ) → Cache γ κ → List String →
    Except Err (List String × List (Entry γ κ) × Cache γ κ × List String)
  | [], newDirs, out, cache, reads => .ok (newDirs, out, cache, reads)
  | raw :: rest, newDirs, out, cache, reads =>
    let fullPath := pathJoin currentDir raw
    if fs.isDir fullPath then
      processReal fs P recurse currentDir rest
        (if recurse then newDirs ++ [fullPath] else newDirs) out cache reads
    else
      match _outputFor fs P cache fullPath none with
      | .error e => .error e
      | .ok (v, cache', r) =>
        processReal fs P recurse currentDir rest newDirs (out ++ [v]) cache' (reads ++ r)

/-- The body of the `for (const {name: raw, gen} of virtualFiles)` loop in
`_contents`: each virtual match goes through `_outputFor` with its
generator. -/
def processVirtual (fs : FS) (P : Parsers κ) (currentDir : String) :
    List (String × γ) → List (Entry γ κ) → Cache γ κ → List String →
    Except Err (List (Entry γ κ) × Cache γ κ × List String)
  | [], out, cache, reads => .ok (out, cache, reads)
  | (raw, gen) :: rest, out, cache, reads =>
    let fullPath := pathJoin currentDir raw
    match _outputFor fs P cache fullPath (some gen) with
    | .error e => .error e
    | .ok (v, cache', r) =>
      processVirtual fs P currentDir rest (out ++ [v]) cache' (reads ++ r)

/-- The `while (pendingDir.length)` loop of `_contents`, fuelled: dequeue a
directory, list it, filter by the active name pattern (everything when the
pattern is the wildcard), process real entries then virtual matches, and
reset the pattern to the wildcard for the subdirectories enqueued during
this pass.  The source's final `filter(x => x !== null)` is the identity
because `_outputFor` never yields null. -/
def _contentsLoop (G : GlobM) (fs : FS) (P : Parsers κ) (gens : List (Reg γ))
    (recurse : Bool) :
    Nat → List String → String → List (Entry γ κ) → Cache γ κ → List String →
    Except Err (List (Entry γ κ) × Cache γ κ × List String)
  | _, [], _, out, cache, reads => .ok (out, cache, reads)
  | 0, _ :: _, _, _, _, _ => .error .fuel
  | fuel + 1, currentDir :: pending, globName, out, cache, reads =>
    let dirContent := fs.readdir currentDir
    let matchedFiles :=
      if globName == "*" then dirContent
      else dirContent.filter (fun n => G.isMatch n globName)
    match processReal fs P recurse currentDir matchedFiles [] out cache reads with
    | .error e => .error e
    | .ok (newDirs, out', cache', reads') =>
      match processVirtual fs P currentDir (_virtual G gens currentDir globName)
          out' cache' reads' with
      | .error e => .error e
      | .ok (out'', cache'', reads'') =>
        _contentsLoop G fs P gens recurse fuel (pending ++ newDirs) "*" out'' cache'' reads''

/-- `ContentLoader._contents(rootDir, globName, recurse)`: an absent root
directory contributes nothing; otherwise run the walk seeded with the
root. -/
def _contents (G : GlobM) (fs : FS) (P : Parsers κ) (gens : List (Reg γ))
    (recurse : Bool) (fuel : Nat) (rootDir globName : String) (cache : Cache γ κ) :
    Except Err (List (Entry γ κ) × Cache γ κ × List String) :=
  if fs.isDir rootDir = false then .ok ([], cache, [])
  else _contentsLoop G fs P gens recurse fuel [rootDir] globName [] cache []

/-- `ContentLoader.contents(req, recurse)`: normalize; an existing directory
is listed under the wildcard; otherwise split into dirname/basename, reject
a glob-shaped dirname, and walk. -/
def contents (G : GlobM) (fs : FS) (P : Parsers κ) (gens : List (Reg γ))
    (cache : Cache γ κ) (fuel : Nat) (req : String) (recurse : Bool) :
    Except Err (List (Entry γ κ) × Cache γ κ × List String) :=
  let req := pathNormalize req
  if fs.isDir req then _contents G fs P gens recurse fuel req "*" cache
  else
    let dir := pathDirname req
    if G.isGlob dir then .error .globDir
    else _contents G fs P gens recurse fuel dir (pathBasename req) cache

/-- `ContentLoader.get(req)`: reject a glob-shaped request outright; then
delegate to `contents` with `recurse=false`, erroring on more than one
match, returning `null` on none and the sole entry otherwise. -/
def get (G : GlobM) (fs : FS) (P : Parsers κ) (gens : List (Reg γ))
    (cache : Cache γ κ) (fuel : Nat) (req : String) :
    Except Err (Option (Entry γ κ) × Cache γ κ × List String) :=
  if G.isGlob req then .error .globRead
  else
    match contents G fs P gens cache fuel req false with
    | .error e => .error e
    | .ok (out, cache', reads) =>
      if out.length > 1 then .error .ambiguous
      else
        match out with
        | [] => .ok (none, cache', reads)
        | v :: _ => .ok (some v, cache', reads)

end ContentLoader

/-! ## Cache invariants -/

/-- Every cached entry is stored under its own path. -/
def CacheOk {γ κ : Type} (cache : Cache γ κ) : Prop :=
  ∀ p e, cacheLookup cache p = some e → e.path = p

/-- The second cache preserves every binding of the first (the cache is
write-once: it only grows, never overwrites). -/
def CacheLe {γ κ : Type} (c c' : Cache γ κ) : Prop :=
  ∀ p e, cacheLookup c p = some e → cacheLookup c' p = some e

/-- Every emitted entry is the cache's binding at its path. -/
def OutOk {γ κ : Type} (out : List (Entry γ κ)) (cache : Cache γ κ) : Prop :=
  ∀ e ∈ out, cacheLookup cache e.path = some e

/-! ## Concrete instances used by the examples

Generator handles are modelled as `Nat` (opaque to the layer), and parsed
configuration values as `Nat` as well (`parseStructured` is an arbitrary
concrete function, here the text length). -/

/-- A storage with one directory `d` holding one real file `d/gen.html`. -/
def fs1 : FS :=
  { isDir := fun p => p == "d"
    readdir := fun p => if p == "d" then ["gen.html"] else []
    readFile := fun p => if p == "d/gen.html" then some "<b>" else none }

/-- Concrete parsers: the front-matter splitter reports a block parsed to `7`
and leaves the text unchanged; the structured parser returns the length. -/
def P1 : Parsers Nat :=
  { splitFrontMatter := fun s => (some 7, s)
    parseStructured := fun s => s.length }

/-- A generator registered for the very name of the real file `d/gen.html`. -/
def gens1 : List (Reg Nat) := [⟨"d", "gen.html", 7⟩]

/-- The record `_buildFromSource` materializes for `d/gen.html` under `fs1`. -/
def eC1 : Entry Nat Nat :=
  ⟨"d/gen.html", none, ContentFile.make "d/gen.html" none (some (some "<b>"))⟩

/-- The cache after `d/gen.html` has been materialized once. -/
def cacheC1 : Cache Nat Nat := [("d/gen.html", eC1)]

/-- A storage with no directories and one real file `notes.txt`. -/
def fs3 : FS :=
  { isDir := fun _ => false
    readdir := fun _ => []
    readFile := fun p => if p == "notes.txt" then some "hello" else none }

/-- A storage with no directories and one real file `a/b.txt`. -/
def fs4 : FS :=
  { isDir := fun _ => false
    readdir := fun _ => []
    readFile := fun p => if p == "a/b.txt" then some "hello" else none }

/-- The record `_buildFromSource` materializes for `a/b.txt` under `fs4`. -/
def cf4 : ContentFile Nat := ContentFile.make "a/b.txt" none none

/-- A registration whose filename pattern is the glob `*`. -/
def gens5 : List (Reg Nat) := [⟨"d", "*", 5⟩]

/-- A registration whose filename pattern is the glob `a*`. -/
def gens6 : List (Reg Nat) := [⟨"d", "a*", 3⟩]

/-- A storage with one real markdown file `a.md` and one YAML file `b.yaml`. -/
def fs9 : FS :=
  { isDir := fun _ => false
    readdir := fun _ => []
    readFile := fun p =>
      if p == "a.md" then some "mdtext"
      else if p == "b.yaml" then some "k: v" else none }

/-- A storage whose one existing directory is itself named with a glob
metacharacter: `d*`. -/
def fsX : FS :=
  { isDir := fun p => p == "d*"
    readdir := fun p => if p == "d*" then ["f.txt"] else []
    readFile := fun _ => none }

/-- A storage with one empty directory `e`. -/
def fsE : FS :=
  { isDir := fun p => p == "e"
    readdir := fun _ => []
    readFile := fun _ => none }

/-- The record `_buildFromSource` materializes for `a.md` under `fs9`/`P1`. -/
def cfmd : ContentFile Nat := ContentFile.make "a.md" (some 7) (some (some "mdtext"))

/-- The record `_buildFromSource` materializes for `b.yaml` under `fs9`/`P1`. -/
def cfy : ContentFile Nat := ContentFile.make "b.yaml" (some 4) (some (some "k: v"))

/-! ## General lemmas -/

theorem cacheLe_refl {γ κ : Type} (c : Cache γ κ) : CacheLe c c :=
  fun _ _ h => h

theorem cacheLe_trans {γ κ : Type} {a b c : Cache γ κ}
    (h1 : CacheLe a b) (h2 : CacheLe b c) : CacheLe a c :=
  fun p e h => h2 p e (h1 p e h)

theorem outOk_mono {γ κ : Type} {out : List (Entry γ κ)} {c c' : Cache γ κ}
    (hle : CacheLe c c') (h : OutOk out c) : OutOk out c' :=
  fun e he => hle e.path e (h e he)

theorem outOk_append {γ κ : Type} {out : List (Entry γ κ)} {c : Cache γ κ}
    {v : Entry γ κ} (h : OutOk out c) (hv : cacheLookup c v.path = some v) :
    OutOk (out ++ [v]) c := by
  intro e he
  rcases List.mem_append.mp he with h1 | h2
  · exact h e h1
  · rcases List.mem_singleton.mp h2 with rfl
    exact hv

/-- `_outputFor` preserves the cache invariants, only grows the cache, binds
the requested path to the returned entry, and returns an entry whose `path`
field is the requested path. -/
theorem outputFor_spec {γ κ : Type} {fs : FS} {P : Parsers κ} {cache : Cache γ κ}
    {fullPath : String} {g : Option γ} {v : Entry γ κ} {c' : Cache γ κ}
    {r : List String} (hck : CacheOk cache)
    (h : ContentLoader._outputFor fs P cache fullPath g = .ok (v, c', r)) :
    CacheOk c' ∧ CacheLe cache c' ∧ cacheLookup c' fullPath = some v ∧
      v.path = fullPath := by
  unfold ContentLoader._outputFor at h
  cases hl : cacheLookup cache fullPath with
  | some w =>
    rw [hl] at h
    simp only [Except.ok.injEq, Prod.mk.injEq] at h
    obtain ⟨rfl, rfl, rfl⟩ := h
    exact ⟨hck, cacheLe_refl _, hl, hck _ _ hl⟩
  | none =>
    rw [hl] at h
    have step : ∀ (w : Entry γ κ), w.path = fullPath →
        v = w → c' = (fullPath, w) :: cache →
        CacheOk c' ∧ CacheLe cache c' ∧ cacheLookup c' fullPath = some v ∧
          v.path = fullPath := by
      rintro w hw rfl rfl
      refine ⟨?_, ?_, ?_, hw⟩
      · intro p e hpe
        simp only [cacheLookup] at hpe
        rcases eq_or_ne p fullPath with rfl | hp
        · rw [if_pos rfl] at hpe
          cases hpe
          exact hw
        · rw [if_neg hp] at hpe
          exact hck p e hpe
      · intro p e hpe
        simp only [cacheLookup]
        rcases eq_or_ne p fullPath with rfl | hp
        · rw [hl] at hpe; cases hpe
        · rw [if_neg hp]; exact hpe
      · simp [cacheLookup]
    cases g with
    | some g0 =>
      simp only [Except.ok.injEq, Prod.mk.injEq] at h
      obtain ⟨hv, hc, _⟩ := h
      exact step _ rfl hv.symm hc.symm
    | none =>
      cases hb : ContentFile._buildFromSource fs P fullPath with
      | error e => rw [hb] at h; cases h
      | ok pr =>
        rw [hb] at h
        simp only [Except.ok.injEq, Prod.mk.injEq] at h
        obtain ⟨hv, hc, _⟩ := h
        exact step _ rfl hv.symm hc.symm

/-- The real-entry loop preserves the cache invariants. -/
theorem processReal_spec {γ κ : Type} (fs : FS) (P : Parsers κ) (recurse : Bool)
    (currentDir : String) :
    ∀ (raws newDirs : List String) (out : List (Entry γ κ)) (cache : Cache γ κ)
      (reads : List String) (nd' : List String) (out' : List (Entry γ κ))
      (c' : Cache γ κ) (r' : List String),
      CacheOk cache → OutOk out cache →
      ContentLoader.processReal fs P recurse currentDir raws newDirs out cache reads
          = .ok (nd', out', c', r') →
      CacheOk c' ∧ CacheLe cache c' ∧ OutOk out' c' := by
  intro raws
  induction raws with
  | nil =>
    intro newDirs out cache reads nd' out' c' r' hck hout h
    simp only [ContentLoader.processReal, Except.ok.injEq, Prod.mk.injEq] at h
    obtain ⟨_, rfl, rfl, _⟩ := h
    exact ⟨hck, cacheLe_refl _, hout⟩
  | cons raw rest ih =>
    intro newDirs out cache reads nd' out' c' r' hck hout h
    simp only [ContentLoader.processReal] at h
    by_cases hd : fs.isDir (pathJoin currentDir raw)
    · rw [if_pos hd] at h
      exact ih _ _ _ _ _ _ _ _ hck hout h
    · rw [if_neg hd] at h
      cases ho : ContentLoader._outputFor fs P cache (pathJoin currentDir raw)
          (none : Option γ) with
      | error e => rw [ho] at h; cases h
      | ok pr =>
        obtain ⟨v, cache1, rr⟩ := pr
        rw [ho] at h
        obtain ⟨hck1, hle1, hbind, hpath⟩ := outputFor_spec hck ho
        have hout1 : OutOk (out ++ [v]) cache1 :=
          outOk_append (outOk_mono hle1 hout) (hpath ▸ hbind)
        obtain ⟨hck2, hle2, hout2⟩ := ih _ _ _ _ _ _ _ _ hck1 hout1 h
        exact ⟨hck2, cacheLe_trans hle1 hle2, hout2⟩

/-- The virtual-match loop preserves the cache invariants. -/
theorem processVirtual_spec {γ κ : Type} (fs : FS) (P : Parsers κ)
    (currentDir : String) :
    ∀ (vs : List (String × γ)) (out : List (Entry γ κ)) (cache : Cache γ κ)
      (reads : List String) (out' : List (Entry γ κ)) (c' : Cache γ κ)
      (r' : List String),
      CacheOk cache → OutOk out cache →
      ContentLoader.processVirtual fs P currentDir vs out cache reads
          = .ok (out', c', r') →
      CacheOk c' ∧ CacheLe cache c' ∧ OutOk out' c' := by
  intro vs
  induction vs with
  | nil =>
    intro out cache reads out' c' r' hck hout h
    simp only [ContentLoader.processVirtual, Except.ok.injEq, Prod.mk.injEq] at h
    obtain ⟨rfl, rfl, _⟩ := h
    exact ⟨hck, cacheLe_refl _, hout⟩
  | cons hd rest ih =>
    intro out cache reads out' c' r' hck hout h
    obtain ⟨raw, gen⟩ := hd
    simp only [ContentLoader.processVirtual] at h
    cases ho : ContentLoader._outputFor fs P cache (pathJoin currentDir raw)
        (some gen) with
    | error e => rw [ho] at h; cases h
    | ok pr =>
      obtain ⟨v, cache1, rr⟩ := pr
      rw [ho] at h
      obtain ⟨hck1, hle1, hbind, hpath⟩ := outputFor_spec hck ho
      have hout1 : OutOk (out ++ [v]) cache1 :=
        outOk_append (outOk_mono hle1 hout) (hpath ▸ hbind)
      obtain ⟨hck2, hle2, hout2⟩ := ih _ _ _ _ _ _ hck1 hout1 h
      exact ⟨hck2, cacheLe_trans hle1 hle2, hout2⟩

/-- The whole fuelled walk preserves the cache invariants. -/
theorem contentsLoop_spec {γ κ : Type} (G : GlobM) (fs : FS) (P : Parsers κ)
    (gens : List (Reg γ)) (recurse : Bool) :
    ∀ (fuel : Nat) (pending : List String) (globName : String)
      (out : List (Entry γ κ)) (cache : Cache γ κ) (reads : List String)
      (out' : List (Entry γ κ)) (c' : Cache γ κ) (r' : List String),
      CacheOk cache → OutOk out cache →
      ContentLoader._contentsLoop G fs P gens recurse fuel pending globName out cache reads
          = .ok (out', c', r') →
      CacheOk c' ∧ CacheLe cache c' ∧ OutOk out' c' := by
  intro fuel
  induction fuel with
  | zero =>
    intro pending globName out cache reads out' c' r' hck hout h
    cases pending with
    | nil =>
      simp only [ContentLoader._contentsLoop, Except.ok.injEq, Prod.mk.injEq] at h
      obtain ⟨rfl, rfl, _⟩ := h
      exact ⟨hck, cacheLe_refl _, hout⟩
    | cons d ds =>
      simp only [ContentLoader._contentsLoop] at h
      cases h
  | succ fuel ih =>
    intro pending globName out cache reads out' c' r' hck hout h
    cases pending with
    | nil =>
      simp only [ContentLoader._contentsLoop, Except.ok.injEq, Prod.mk.injEq] at h
      obtain ⟨rfl, rfl, _⟩ := h
      exact ⟨hck, cacheLe_refl _, hout⟩
    | cons d ds =>
      simp only [ContentLoader._contentsLoop] at h
      split at h
      · cases h
      · next newDirs out1 cache1 reads1 hr =>
        obtain ⟨hck1, hle1, hout1⟩ :=
          processReal_spec fs P recurse d _ _ _ _ _ _ _ _ _ hck hout hr
        split at h
        · cases h
        · next out2 cache2 reads2 hv =>
          obtain ⟨hck2, hle2, hout2⟩ :=
            processVirtual_spec fs P d _ _ _ _ _ _ _ hck1 hout1 hv
          obtain ⟨hck3, hle3, hout3⟩ := ih _ _ _ _ _ _ _ _ hck2 hout2 h
          exact ⟨hck3, cacheLe_trans hle1 (cacheLe_trans hle2 hle3), hout3⟩

/-- `_contents` preserves the cache invariants. -/
theorem contentsAux_spec {γ κ : Type} {G : GlobM} {fs : FS} {P : Parsers κ}
    {gens : List (Reg γ)} {recurse : Bool} {fuel : Nat} {rootDir globName : String}
    {cache : Cache γ κ} {out : List (Entry γ κ)} {c' : Cache γ κ} {r : List String}
    (hck : CacheOk cache)
    (h : ContentLoader._contents G fs P gens recurse fuel rootDir globName cache
        = .ok (out, c', r)) :
    CacheOk c' ∧ CacheLe cache c' ∧ OutOk out c' := by
  unfold ContentLoader._contents at h
  split at h
  · simp only [Except.ok.injEq, Prod.mk.injEq] at h
    obtain ⟨rfl, rfl, _⟩ := h
    exact ⟨hck, cacheLe_refl _, fun e he => absurd he (List.not_mem_nil e)⟩
  · exact contentsLoop_spec G fs P gens recurse fuel _ _ _ _ _ _ _ _ hck
      (fun e he => absurd he (List.not_mem_nil e)) h

/-- `contents` preserves the cache invariants. -/
theorem contents_spec {γ κ : Type} {G : GlobM} {fs : FS} {P : Parsers κ}
    {gens : List (Reg γ)} {cache : Cache γ κ} {fuel : Nat} {req : String}
    {recurse : Bool} {out : List (Entry γ κ)} {c' : Cache γ κ} {r : List String}
    (hck : CacheOk cache)
    (h : ContentLoader.contents G fs P gens cache fuel req recurse = .ok (out, c', r)) :
    CacheOk c' ∧ CacheLe cache c' ∧ OutOk out c' := by
  unfold ContentLoader.contents at h
  dsimp only at h
  split at h
  · exact contentsAux_spec hck h
  · split at h
    · cases h
    · exact contentsAux_spec hck h

/-! ## Claim C1 -/

/-- C1, counterexample: under `fs1` with the generator registration
`("d", "gen.html")`, the walk `contents("d")` returns the logical path
`d/gen.html` twice — once from the real directory entry and once from the
matching generator registration — so a logical path can appear more than
once in the returned list, contrary to the claim. -/
theorem contents_duplicate_path_counterexample :
    (ContentLoader.contents simpleGlob fs1 P1 gens1 [] 5 "d" false).toOption.map
        (fun res => res.1.map (fun e => e.path))
      = some ["d/gen.html", "d/gen.html"] := rfl

/-- C1 (amended): in every successful `contents(request, recurse)` walk
started from a well-keyed cache, all returned entries that share a logical
path are the identical cached record (the first materialization wins);
the path itself may however occur several times in the list. -/
theorem contents_equal_path_entries_identical {γ κ : Type} {G : GlobM} {fs : FS}
    {P : Parsers κ} {gens : List (Reg γ)} {cache : Cache γ κ} {fuel : Nat}
    {req : String} {recurse : Bool} {out : List (Entry γ κ)} {c' : Cache γ κ}
    {r : List String} (hck : CacheOk cache)
    (h : ContentLoader.contents G fs P gens cache fuel req recurse = .ok (out, c', r)) :
    ∀ e1 ∈ out, ∀ e2 ∈ out, e1.path = e2.path → e1 = e2 := by
  obtain ⟨_, _, hout⟩ := contents_spec hck h
  intro e1 h1 e2 h2 hp
  have b1 := hout e1 h1
  have b2 := hout e2 h2
  rw [hp] at b1
  rw [b1] at b2
  exact Option.some.inj b2

/-- C1, witness: the amended statement evaluated on the duplicate-producing
walk of the counterexample. -/
theorem contents_equal_path_entries_identical_witness :
    CacheOk ([] : Cache Nat Nat) ∧
    ContentLoader.contents simpleGlob fs1 P1 gens1 [] 5 "d" false
      = .ok ([eC1, eC1], cacheC1, ["d/gen.html"]) ∧
    eC1 = eC1 := by
  have hck : CacheOk ([] : Cache Nat Nat) := fun p e h => by cases h
  have hrun : ContentLoader.contents simpleGlob fs1 P1 gens1 [] 5 "d" false
      = .ok ([eC1, eC1], cacheC1, ["d/gen.html"]) := rfl
  exact ⟨hck, hrun,
    contents_equal_path_entries_identical hck hrun eC1 (List.mem_cons_self _ _)
      eC1 (List.mem_cons_self _ _) rfl⟩

/-! ## Claim C2 -/

/-- C2: once a path has been resolved through `_outputFor`, resolving it
again (with any generator argument, in this or a later call) returns the
identical cached entry, performs no file read, leaves the cache unchanged,
and the cache binds the path to that entry — the cache is write-once. -/
theorem outputFor_second_resolution_cached {γ κ : Type} {fs : FS} {P : Parsers κ}
    {cache : Cache γ κ} {p : String} {g g' : Option γ} {v : Entry γ κ}
    {c1 : Cache γ κ} {r : List String}
    (h : ContentLoader._outputFor fs P cache p g = .ok (v, c1, r)) :
    ContentLoader._outputFor fs P c1 p g' = .ok (v, c1, []) ∧
      cacheLookup c1 p = some v := by
  have hbind : cacheLookup c1 p = some v := by
    unfold ContentLoader._outputFor at h
    cases hl : cacheLookup cache p with
    | some w =>
      rw [hl] at h
      simp only [Except.ok.injEq, Prod.mk.injEq] at h
      obtain ⟨rfl, rfl, _⟩ := h
      exact hl
    | none =>
      rw [hl] at h
      cases g with
      | some g0 =>
        simp only [Except.ok.injEq, Prod.mk.injEq] at h
        obtain ⟨rfl, rfl, _⟩ := h
        simp [cacheLookup]
      | none =>
        cases hb : ContentFile._buildFromSource fs P p with
        | error e => rw [hb] at h; cases h
        | ok pr =>
          rw [hb] at h
          simp only [Except.ok.injEq, Prod.mk.injEq] at h
          obtain ⟨rfl, rfl, _⟩ := h
          simp [cacheLookup]
  refine ⟨?_, hbind⟩
  unfold ContentLoader._outputFor
  rw [hbind]

/-- C2, witness: resolving `d/gen.html` twice through the same cache: the
first call reads the file once; the second returns the identical entry with
no read. -/
theorem outputFor_second_resolution_cached_witness :
    ContentLoader._outputFor fs1 P1 ([] : Cache Nat Nat) "d/gen.html" none
      = .ok (eC1, cacheC1, ["d/gen.html"]) ∧
    ContentLoader._outputFor fs1 P1 cacheC1 "d/gen.html" (none : Option Nat)
      = .ok (eC1, cacheC1, []) ∧
    cacheLookup cacheC1 "d/gen.html" = some eC1 := by
  have h1 : ContentLoader._outputFor fs1 P1 ([] : Cache Nat Nat) "d/gen.html" none
      = .ok (eC1, cacheC1, ["d/gen.html"]) := rfl
  obtain ⟨h2, h3⟩ := @outputFor_second_resolution_cached Nat Nat fs1 P1 [] "d/gen.html"
    none none eC1 cacheC1 ["d/gen.html"] h1
  exact ⟨h1, h2, h3⟩

/-! ## Claim C3 -/

/-- C3: the claim says a record built from a real source file with a
non-eager extension has its content in the distinct unread sentinel state
at construction.  In the code, `_buildFromSource` leaves `content`
undefined, but the constructor's default parameter collapses that sentinel
to `null`: the record built for `notes.txt` has `content` resolved to null
(`some none`), not the unread sentinel (`none`), even though the file
exists on storage with a body. -/
theorem buildFromSource_lazy_extension_resolves_to_null :
    ContentFile._buildFromSource fs3 P1 "notes.txt"
      = .ok (ContentFile.make "notes.txt" none none, []) ∧
    (ContentFile.make "notes.txt" (none : Option Nat) none).content = some none ∧
    fs3.readFile "notes.txt" = some "hello" :=
  ⟨rfl, rfl, rfl⟩

/-! ## Claim C4 -/

/-- C4: the claim says `read()` on a lazily-built record performs exactly one
full-file read of the record's path and caches the string.  In the code the
record built for the existing file `a/b.txt` already has `content` resolved
to null (constructor default), and `this.path` is never assigned, so
`read()` returns null, performs no storage read at all, and leaves the
record unchanged — the body `"hello"` is never fetched. -/
theorem read_returns_null_without_io_for_lazy_record :
    ContentFile._buildFromSource fs4 P1 "a/b.txt" = .ok (cf4, []) ∧
    cf4.read fs4 = (.ok none, cf4, []) ∧
    cf4.path = none ∧
    fs4.readFile "a/b.txt" = some "hello" :=
  ⟨rfl, rfl, rfl, rfl⟩

/-! ## Claim C5 -/

/-- C5, counterexample: the registration `("d", "*")` has a glob filename
pattern, yet a broad listing (candidate pattern `*`) does offer it, because
the literal candidate text `*` itself satisfies the stored name glob in the
direct-match branch. -/
theorem virtual_star_registration_offered_at_broad_listing :
    simpleGlob.isGlob "*" = true ∧
    ContentLoader._virtual simpleGlob gens5 "d" "*" = [("*", 5)] :=
  ⟨rfl, rfl⟩

/-- C5 (amended): in a matching directory, a registration with a non-glob
filename is offered at a broad listing; a registration with a glob filename
is not offered at a broad listing provided the literal text `*` does not
itself satisfy its name glob; and an explicit request for a concrete
filename satisfying that glob is offered. -/
theorem virtual_three_way_matching_policy {γ : Type} (G : GlobM) (r1 r2 : Reg γ)
    (cDir fname : String)
    (h1 : G.isMatch cDir r1.dir = true)
    (h2 : G.isGlob r1.name = false)
    (h3 : G.isMatch "*" r1.name = false)
    (h4 : G.isMatch cDir r2.dir = true)
    (h5 : G.isGlob r2.name = true)
    (h6 : G.isMatch "*" r2.name = false)
    (h7 : G.isMatch fname r2.name = true) :
    ContentLoader._virtual G [r1] cDir "*" = [(r1.name, r1.gen)] ∧
    ContentLoader._virtual G [r2] cDir "*" = [] ∧
    ContentLoader._virtual G [r2] cDir fname = [(fname, r2.gen)] := by
  unfold ContentLoader._virtual
  refine ⟨?_, ?_, ?_⟩ <;> simp [h1, h2, h3, h4, h5, h6, h7]

/-- C5, witness: the spec's own example — `("pages/*", "index.html")` is
offered for a broad listing of `pages/foo`; `("pages/*", "draft-*.md")` is
not, but is offered for the explicit request `draft-1.md`. -/
theorem virtual_three_way_matching_policy_witness :
    ContentLoader._virtual simpleGlob [(⟨"pages/*", "index.html", 1⟩ : Reg Nat)]
        "pages/foo" "*" = [("index.html", 1)] ∧
    ContentLoader._virtual simpleGlob [(⟨"pages/*", "draft-*.md", 2⟩ : Reg Nat)]
        "pages/foo" "*" = [] ∧
    ContentLoader._virtual simpleGlob [(⟨"pages/*", "draft-*.md", 2⟩ : Reg Nat)]
        "pages/foo" "draft-1.md" = [("draft-1.md", 2)] :=
  virtual_three_way_matching_policy simpleGlob ⟨"pages/*", "index.html", 1⟩
    ⟨"pages/*", "draft-*.md", 2⟩ "pages/foo" "draft-1.md" rfl rfl rfl rfl rfl rfl rfl

/-! ## Claim C6 -/

/-- C6, counterexample: the glob-shaped candidate name `a?` is matched
through the direct-match branch of `_virtual` against the registration
`("d", "a*")`: the output name is the candidate itself (`a?`, not the
stored `a*`, which the other branch would yield and which is blocked by its
non-glob guard), so the direct branch is not restricted to non-glob literal
candidates. -/
theorem virtual_direct_branch_accepts_glob_candidate :
    simpleGlob.isGlob "a?" = true ∧
    ContentLoader._virtual simpleGlob gens6 "d" "a?" = [("a?", 3)] :=
  ⟨rfl, rfl⟩

/-- C6 (amended): the direct-match branch applies whenever the candidate
name string satisfies the registration's name glob, with no guard on the
candidate being a non-glob literal; it yields the candidate name itself. -/
theorem virtual_direct_branch_unguarded {γ : Type} (G : GlobM) (r : Reg γ)
    (cDir cName : String)
    (h1 : G.isMatch cDir r.dir = true)
    (h2 : G.isMatch cName r.name = true) :
    ContentLoader._virtual G [r] cDir cName = [(cName, r.gen)] := by
  unfold ContentLoader._virtual
  simp [h1, h2]

/-- C6, witness: the concrete literal candidate `ab` satisfying the name
glob `a*` resolves through the direct branch. -/
theorem virtual_direct_branch_unguarded_witness :
    ContentLoader._virtual simpleGlob [(⟨"d", "a*", 3⟩ : Reg Nat)] "d" "ab"
      = [("ab", 3)] :=
  virtual_direct_branch_unguarded simpleGlob ⟨"d", "a*", 3⟩ "d" "ab" rfl rfl

/-! ## Claims C7 and C10: `get` -/

/-- `get` on a glob-shaped request fails before any storage access (the
result is the invalid-request error for every storage). -/
theorem get_glob_rejected {γ κ : Type} (G : GlobM) (fs' : FS) (P : Parsers κ)
    (gens : List (Reg γ)) (cache : Cache γ κ) (fuel : Nat) (req : String)
    (hg : G.isGlob req = true) :
    ContentLoader.get G fs' P gens cache fuel req = .error .globRead := by
  unfold ContentLoader.get
  simp [hg]

/-- `get` on a non-glob request follows the three arms of `contents`. -/
theorem get_cases {γ κ : Type} (G : GlobM) (fs : FS) (P : Parsers κ)
    (gens : List (Reg γ)) (cache : Cache γ κ) (fuel : Nat) (req : String)
    (out : List (Entry γ κ)) (c' : Cache γ κ) (r : List String)
    (hg : G.isGlob req = false)
    (hc : ContentLoader.contents G fs P gens cache fuel req false = .ok (out, c', r)) :
    (out = [] → ContentLoader.get G fs P gens cache fuel req = .ok (none, c', r)) ∧
    (∀ e, out = [e] → ContentLoader.get G fs P gens cache fuel req = .ok (some e, c', r)) ∧
    (2 ≤ out.length → ContentLoader.get G fs P gens cache fuel req = .error .ambiguous) := by
  refine ⟨?_, ?_, ?_⟩
  · rintro rfl
    unfold ContentLoader.get
    simp [hg, hc]
  · rintro e rfl
    unfold ContentLoader.get
    simp [hg, hc]
  · intro h2
    have hlt : out.length > 1 := by omega
    unfold ContentLoader.get
    simp [hg, hc, hlt]

/-- C7: `get(p)` errors with the invalid-request error — independently of
the storage, hence without I/O — when `p` is glob-shaped; otherwise, when
`contents(p)` succeeds, it returns null on zero entries, the sole record on
one entry, and errors with the ambiguous-resolution error on two or more. -/
theorem get_resolution_policy {γ κ : Type} (G : GlobM) (fs : FS) (P : Parsers κ)
    (gens : List (Reg γ)) (cache : Cache γ κ) (fuel : Nat) (req : String) :
    (G.isGlob req = true → ∀ fs' : FS,
        ContentLoader.get G fs' P gens cache fuel req = .error .globRead) ∧
    (∀ (out : List (Entry γ κ)) (c' : Cache γ κ) (r : List String),
      G.isGlob req = false →
      ContentLoader.contents G fs P gens cache fuel req false = .ok (out, c', r) →
      (out = [] → ContentLoader.get G fs P gens cache fuel req = .ok (none, c', r)) ∧
      (∀ e, out = [e] →
          ContentLoader.get G fs P gens cache fuel req = .ok (some e, c', r)) ∧
      (2 ≤ out.length →
          ContentLoader.get G fs P gens cache fuel req = .error .ambiguous)) :=
  ⟨fun hg fs' => get_glob_rejected G fs' P gens cache fuel req hg,
   fun out c' r hg hc => get_cases G fs P gens cache fuel req out c' r hg hc⟩

/-- C7, witness: the four arms on concrete storages — a glob request is
rejected, an unmatched request yields null, a uniquely matched request
yields its record, and a real-plus-virtual double match for one path is
ambiguous. -/
theorem get_resolution_policy_witness :
    ContentLoader.get simpleGlob fs1 P1 gens1 ([] : Cache Nat Nat) 5 "a*"
      = .error .globRead ∧
    ContentLoader.get simpleGlob fs1 P1 gens1 [] 5 "d/none.txt" = .ok (none, [], []) ∧
    ContentLoader.get simpleGlob fs1 P1 ([] : List (Reg Nat)) [] 5 "d/gen.html"
      = .ok (some eC1, cacheC1, ["d/gen.html"]) ∧
    ContentLoader.get simpleGlob fs1 P1 gens1 [] 5 "d/gen.html" = .error .ambiguous := by
  refine ⟨(get_resolution_policy simpleGlob fs1 P1 gens1 [] 5 "a*").1 rfl fs1, ?_, ?_, ?_⟩
  · exact ((get_resolution_policy simpleGlob fs1 P1 gens1 [] 5 "d/none.txt").2
      [] [] [] rfl rfl).1 rfl
  · exact ((get_resolution_policy simpleGlob fs1 P1 ([] : List (Reg Nat)) [] 5
      "d/gen.html").2 [eC1] cacheC1 ["d/gen.html"] rfl rfl).2.1 eC1 rfl
  · exact ((get_resolution_policy simpleGlob fs1 P1 gens1 [] 5 "d/gen.html").2
      [eC1, eC1] cacheC1 ["d/gen.html"] rfl rfl).2.2 (by decide)

/-! ## Claim C8 -/

/-- C8: for a request that does not denote an existing directory, a
glob-shaped directory component is rejected with the invalid-request error;
and when the resolved root directory does not exist on disk, `contents`
returns the empty list (with the cache untouched and no reads) instead of
throwing. -/
theorem contents_request_shape_policy {γ κ : Type} (G : GlobM) (fs : FS)
    (P : Parsers κ) (gens : List (Reg γ)) (cache : Cache γ κ) (fuel : Nat)
    (req : String) (recurse : Bool) :
    (fs.isDir (pathNormalize req) = false →
      G.isGlob (pathDirname (pathNormalize req)) = true →
      ContentLoader.contents G fs P gens cache fuel req recurse = .error .globDir) ∧
    (fs.isDir (pathNormalize req) = false →
      G.isGlob (pathDirname (pathNormalize req)) = false →
      fs.isDir (pathDirname (pathNormalize req)) = false →
      ContentLoader.contents G fs P gens cache fuel req recurse
        = .ok ([], cache, [])) := by
  constructor
  · intro h1 h2
    unfold ContentLoader.contents
    simp [h1, h2]
  · intro h1 h2 h3
    unfold ContentLoader.contents ContentLoader._contents
    simp [h1, h2, h3]

/-- C8, witness: on a storage with no directories, `x*/f.md` is rejected for
its glob-shaped directory component, while `a/b.txt` (whose root directory
`a` does not exist) yields the empty list. -/
theorem contents_request_shape_policy_witness :
    ContentLoader.contents simpleGlob fs3 P1 ([] : List (Reg Nat)) [] 5 "x*/f.md" false
      = .error .globDir ∧
    ContentLoader.contents simpleGlob fs3 P1 ([] : List (Reg Nat)) [] 5 "a/b.txt" false
      = .ok ([], [], []) :=
  ⟨(contents_request_shape_policy simpleGlob fs3 P1 [] [] 5 "x*/f.md" false).1 rfl rfl,
   (contents_request_shape_policy simpleGlob fs3 P1 [] [] 5 "a/b.txt" false).2
     rfl rfl rfl⟩

/-! ## Claim C9 -/

/-- C9: a Markdown source file with a leading front-matter block
materializes to a record whose `config` is the parsed block and whose
`content` is the text with the block removed, read and split exactly once
(`read()` afterwards returns the cached body with no I/O and no re-parse);
a YAML source file materializes with `config` the parse of the whole
document and `content` the verbatim text. -/
theorem buildFromSource_markdown_and_yaml {κ : Type} (fs : FS) (P : Parsers κ)
    (pmd pyaml text ytext rest : String) (cfg : κ)
    (cf cf' : ContentFile κ) (r r' : List String)
    (hmd : pathExtname pmd = ".md")
    (hread : fs.readFile pmd = some text)
    (hsplit : P.splitFrontMatter text = (some cfg, rest))
    (hb : ContentFile._buildFromSource fs P pmd = .ok (cf, r))
    (hyext : pathExtname pyaml = ".yaml")
    (hyread : fs.readFile pyaml = some ytext)
    (hb' : ContentFile._buildFromSource fs P pyaml = .ok (cf', r')) :
    cf.config = some cfg ∧ cf.content = some (some rest) ∧ r = [pmd] ∧
    cf.read fs = (.ok (some rest), cf, []) ∧
    cf'.config = some (P.parseStructured ytext) ∧ cf'.content = some (some ytext) ∧
    r' = [pyaml] := by
  have hbv : ContentFile._buildFromSource fs P pmd
      = .ok (ContentFile.make pmd (some cfg) (some (some rest)), [pmd]) := by
    unfold ContentFile._buildFromSource
    rw [hmd, hread]
    dsimp only
    rw [hsplit]
    rfl
  have hbv' : ContentFile._buildFromSource fs P pyaml
      = .ok (ContentFile.make pyaml (some (P.parseStructured ytext))
          (some (some ytext)), [pyaml]) := by
    unfold ContentFile._buildFromSource
    rw [hyext, hyread]
    rfl
  rw [hbv] at hb
  rw [hbv'] at hb'
  simp only [Except.ok.injEq, Prod.mk.injEq] at hb hb'
  obtain ⟨rfl, rfl⟩ := hb
  obtain ⟨rfl, rfl⟩ := hb'
  exact ⟨rfl, rfl, rfl, rfl, rfl, rfl, rfl⟩

/-- C9, witness: the markdown file `a.md` and the YAML file `b.yaml` under
`fs9` with the concrete parsers `P1`. -/
theorem buildFromSource_markdown_and_yaml_witness :
    cfmd.config = some 7 ∧ cfmd.content = some (some "mdtext") ∧
    (["a.md"] : List String) = ["a.md"] ∧
    cfmd.read fs9 = (.ok (some "mdtext"), cfmd, []) ∧
    cfy.config = some (P1.parseStructured "k: v") ∧
    cfy.content = some (some "k: v") ∧
    (["b.yaml"] : List String) = ["b.yaml"] :=
  buildFromSource_markdown_and_yaml fs9 P1 "a.md" "b.yaml" "mdtext" "k: v" "mdtext" 7
    cfmd cfy ["a.md"] ["b.yaml"] rfl rfl rfl rfl rfl rfl rfl

/-! ## Claim C10 -/

/-- C10, counterexample: the path `d*` names an existing directory of `fsX`,
yet `get("d*")` is rejected for shape (the invalid-request error) before the
directory is ever consulted, contrary to the claim that a request naming an
existing directory is not rejected for shape. -/
theorem get_existing_glob_named_directory_rejected :
    fsX.isDir "d*" = true ∧
    ContentLoader.get simpleGlob fsX P1 ([] : List (Reg Nat)) [] 5 "d*"
      = .error .globRead :=
  ⟨rfl, rfl⟩

/-- C10 (amended): for every non-glob-shaped request path naming an existing
directory, `get` enumerates that directory under the wildcard pattern (real
entries plus virtual matches) and returns null on zero records, the single
record on exactly one, and the ambiguous-resolution error on two or more. -/
theorem get_on_existing_directory {γ κ : Type} (G : GlobM) (fs : FS) (P : Parsers κ)
    (gens : List (Reg γ)) (cache : Cache γ κ) (fuel : Nat) (p : String)
    (out : List (Entry γ κ)) (c' : Cache γ κ) (r : List String)
    (hng : G.isGlob p = false)
    (hdir : fs.isDir (pathNormalize p) = true)
    (hc : ContentLoader._contents G fs P gens false fuel (pathNormalize p) "*" cache
        = .ok (out, c', r)) :
    (out = [] → ContentLoader.get G fs P gens cache fuel p = .ok (none, c', r)) ∧
    (∀ e, out = [e] → ContentLoader.get G fs P gens cache fuel p = .ok (some e, c', r)) ∧
    (2 ≤ out.length → ContentLoader.get G fs P gens cache fuel p = .error .ambiguous) := by
  have hcontents : ContentLoader.contents G fs P gens cache fuel p false
      = .ok (out, c', r) := by
    unfold ContentLoader.contents
    simp [hdir, hc]
  exact get_cases G fs P gens cache fuel p out c' r hng hcontents

/-- C10, witness: the three arms on concrete directories — the empty
directory `e` yields null, the directory `d` with one file yields its sole
record, and `d` with a same-path generator registration is ambiguous. -/
theorem get_on_existing_directory_witness :
    ContentLoader.get simpleGlob fsE P1 ([] : List (Reg Nat)) [] 5 "e"
      = .ok (none, [], []) ∧
    ContentLoader.get simpleGlob fs1 P1 ([] : List (Reg Nat)) [] 5 "d"
      = .ok (some eC1, cacheC1, ["d/gen.html"]) ∧
    ContentLoader.get simpleGlob fs1 P1 gens1 [] 5 "d" = .error .ambiguous := by
  refine ⟨?_, ?_, ?_⟩
  · exact (get_on_existing_directory simpleGlob fsE P1 [] [] 5 "e"
      [] [] [] rfl rfl rfl).1 rfl
  · exact (get_on_existing_directory simpleGlob fs1 P1 [] [] 5 "d"
      [eC1] cacheC1 ["d/gen.html"] rfl rfl rfl).2.1 eC1 rfl
  · exact (get_on_existing_directory simpleGlob fs1 P1 gens1 [] 5 "d"
      [eC1, eC1] cacheC1 ["d/gen.html"] rfl rfl rfl).2.2 (by decide)
